import Mathlib

/-!
Verification of the reconciliation and sync engine of the Purdue basketball
calendar scripts (`scripts/purdue_refresh_from_web.py`, `scripts/utils.py`,
`scripts/gcal.py`).

Python dict-based game records are embedded as a fixed-shape structure; a
string field that the code reads with `d.get(k, "")` is modelled as a plain
`String` with `""` standing for an absent key (the code treats the two the
same everywhere it reads these fields).  The `phase` key is the one field
where the code distinguishes an absent key (`g.get("phase", "regular")`)
from an empty string, so it is modelled as `Option String`.

The merge / change-detection section of `main` mutates the baseline records
in place (the merged record *is* the baseline dict), so that part is
embedded as a heap: a store of cells addressed by position, with the
baseline and the merged list both holding addresses into the store.
-/

/-! ### `scripts/utils.py` — whitespace normalisation and slugs -/

/-- ASCII model of Python's `\s` character class. -/
def isWs (c : Char) : Bool :=
  c == ' ' || c == '\t' || c == '\n' || c == '\r' || c == '\x0b' || c == '\x0c'

/-- The character class `[a-z0-9]` used by `slug`'s regular expression. -/
def isLowerAlnum (c : Char) : Bool :=
  ('a' ≤ c && c ≤ 'z') || ('0' ≤ c && c ≤ '9')

/-- ASCII model of Python's `str.lower` on a single character. -/
def pyLower (c : Char) : Char :=
  if 'A' ≤ c ∧ c ≤ 'Z' then Char.ofNat (c.toNat + 32) else c

/-- Replace every maximal run of characters satisfying `p` by the single
character `sep` (the effect of `re.sub(p+, sep, s)`).  The boolean flag
records whether the previous character was inside such a run. -/
def replRunsAux (p : Char → Bool) (sep : Char) : Bool → List Char → List Char
  | _, [] => []
  | inRun, c :: rest =>
    if p c then
      if inRun then replRunsAux p sep true rest
      else sep :: replRunsAux p sep true rest
    else c :: replRunsAux p sep false rest

def replRuns (p : Char → Bool) (sep : Char) (l : List Char) : List Char :=
  replRunsAux p sep false l

/-- Drop the characters satisfying `q` from both ends (Python `str.strip`). -/
def stripBy (q : Char → Bool) (l : List Char) : List Char :=
  ((l.dropWhile q).reverse.dropWhile q).reverse

/-- `normalize_ws` from `scripts/utils.py`:
`re.sub(r"\s+", " ", (s or "").strip())`. -/
def normalize_ws_l (l : List Char) : List Char :=
  replRuns isWs ' ' (stripBy isWs l)

/-- `slug` from `scripts/utils.py`:
lower-case the whitespace-normalised string, replace every run of
non-`[a-z0-9]` characters by a single hyphen, strip hyphens at both ends. -/
def slugL (l : List Char) : List Char :=
  stripBy (· == '-') (replRuns (fun c => !(isLowerAlnum c)) '-' ((normalize_ws_l l).map pyLower))

def normalize_ws (s : String) : String := ⟨normalize_ws_l s.data⟩

def slug (s : String) : String := ⟨slugL s.data⟩

/-- `stable_id` from `scripts/purdue_refresh_from_web.py`:
`f"{date_iso}-{slug(opponent)}-{slug(phase)}"`. -/
def stable_id (date_iso opponent phase : String) : String :=
  date_iso ++ "-" ++ slug opponent ++ "-" ++ slug phase

/-! ### The data model -/

/-- One game record (a Python dict in the source).  String fields read via
`g.get(k, "")` are plain strings with `""` for an absent key; `phase` is
`Option String` because the code distinguishes an absent `phase` key
(defaulted to `"regular"`) from an empty string. -/
structure Game where
  date : String
  opponent : String
  location : String
  phase : Option String
  tv : String
  result : String
  notes : String
  stable_id : String
deriving DecidableEq

def defaultGame : Game :=
  { date := "", opponent := "", location := "", phase := none,
    tv := "", result := "", notes := "", stable_id := "" }

/-- A record produced by `scrape_espn_schedule` (the scraper also emits
`time`, `location` and `link` keys, which `main`'s merge never reads). -/
structure Fetched where
  date : String
  opponent : String
  tv : String
  result : String
deriving DecidableEq

/-! ### String comparison

Python compares strings lexicographically by code point; this is that
order, written out so that it evaluates by structural recursion. -/

def charsLt : List Char → List Char → Bool
  | _, [] => false
  | [], _ :: _ => true
  | a :: as, b :: bs => if a < b then true else if b < a then false else charsLt as bs

/-- `a < b` for Python strings. -/
def strLt (a b : String) : Bool := charsLt a.data b.data

def prefixOf : List Char → List Char → Bool
  | [], _ => true
  | _ :: _, [] => false
  | a :: as, b :: bs => a == b && prefixOf as bs

/-- Python `s.startswith(pre)`. -/
def strStartsWith (s pre : String) : Bool := prefixOf pre.data s.data

/-! ### `calculate_record` (lines 37-49) -/

/-- The loop body of `calculate_record`: skip a game with
`g["date"] > up_to_date`, count a win when `result` starts with `"W"` and a
loss when it starts with `"L"`, ignore anything else. -/
def recordStep (up_to_date : String) (wl : Nat × Nat) (g : Game) : Nat × Nat :=
  if strLt up_to_date g.date then wl
  else if strStartsWith g.result "W" then (wl.1 + 1, wl.2)
  else if strStartsWith g.result "L" then (wl.1, wl.2 + 1)
  else wl

/-- `calculate_record(games, up_to_date)` (lines 37-49). -/
def calculate_record (games : List Game) (up_to_date : String) : Nat × Nat :=
  games.foldl (recordStep up_to_date) (0, 0)

/-! ### `diff_game` (lines 87-92) -/

/-- One entry of the `changes` mapping produced by `diff_game`. -/
structure FieldChange where
  field : String
  fromVal : String
  toVal : String
deriving DecidableEq

/-- The tracked fields, in the order the code iterates them. -/
def diffKeys : List String := ["opponent", "location", "tv", "result", "date", "phase"]

/-- `(g.get(k, "") or "")` for a tracked field `k`. -/
def fieldGet (g : Game) : String → String
  | "opponent" => g.opponent
  | "location" => g.location
  | "tv" => g.tv
  | "result" => g.result
  | "date" => g.date
  | "phase" => g.phase.getD ""
  | _ => ""

/-- `diff_game(old, new)`: the tracked fields whose normalised old and new
values differ, with their from/to values. -/
def diff_game (old new : Game) : List FieldChange :=
  diffKeys.filterMap fun k =>
    if fieldGet old k ≠ fieldGet new k then
      some ⟨k, fieldGet old k, fieldGet new k⟩
    else none

/-! ### The heap used to model in-place dict mutation -/

abbrev Store := List Game

/-- Read the cell at address `a`. -/
def getC (st : Store) (a : Nat) : Game := st.getD a defaultGame

/-- Overwrite the cell at address `a`. -/
def setC (st : Store) (a : Nat) (g : Game) : Store := st.set a g

/-- Python-dict lookup in an association list built in insertion order:
a later binding for the same key wins. -/
def pyLookup {α β : Type} [DecidableEq α] : List (α × β) → α → Option β
  | [], _ => none
  | (k, v) :: rest, k' =>
    match pyLookup rest k' with
    | some v' => some v'
    | none => if k = k' then some v else none

/-! ### The merge / diff pipeline of `main` (lines 116-166) -/

/-- `g.get("phase", "regular")`. -/
def phaseD (g : Game) : String := g.phase.getD "regular"

/-- `existing_regular = {(g["date"], g["opponent"]): g for g in games_old
if g.get("phase", "regular") == "regular"}`, with dict values modelled as
heap addresses. -/
def buildIndex (st : Store) (addrs : List Nat) : List ((String × String) × Nat) :=
  addrs.filterMap fun a =>
    let g := getC st a
    if phaseD g = "regular" then some ((g.date, g.opponent), a) else none

/-- `if eg.get("tv"): g["tv"] = eg["tv"]`. -/
def overlayTv (g : Game) (eg : Fetched) : Game :=
  if eg.tv ≠ "" then { g with tv := eg.tv } else g

/-- `if eg.get("result"): g["result"] = eg["result"]`. -/
def overlayResult (g : Game) (eg : Fetched) : Game :=
  if eg.result ≠ "" then { g with result := eg.result } else g

/-- The skeleton dict synthesised for a fetched record with no matching
baseline key (lines 129-137).  It carries no `stable_id` key. -/
def skeleton (eg : Fetched) : Game :=
  { date := eg.date, opponent := eg.opponent, location := "",
    phase := some "regular", tv := "", result := "", notes := "", stable_id := "" }

structure MergeState where
  store : Store
  merged : List Nat
deriving DecidableEq

/-- One iteration of the merge loop (lines 127-142).  A matched baseline
record is mutated in place — the merged entry is the baseline cell's
address; an unmatched fetched record allocates a fresh cell. -/
def mergeOne (idx : List ((String × String) × Nat)) (ms : MergeState) (eg : Fetched) :
    MergeState :=
  match pyLookup idx (eg.date, eg.opponent) with
  | some a =>
    let g := getC ms.store a
    { store := setC ms.store a (overlayResult (overlayTv g eg) eg),
      merged := ms.merged ++ [a] }
  | none =>
    { store := ms.store ++ [overlayResult (overlayTv (skeleton eg) eg) eg],
      merged := ms.merged ++ [ms.store.length] }

def mergeLoop (idx : List ((String × String) × Nat)) (egs : List Fetched)
    (ms : MergeState) : MergeState :=
  egs.foldl (mergeOne idx) ms

/-- `g.get("phase") in ("big_ten_tournament", "ncaa_tournament", "placeholder")`. -/
def isPlaceholder (g : Game) : Bool :=
  g.phase == some "big_ten_tournament" || g.phase == some "ncaa_tournament" ||
    g.phase == some "placeholder"

/-- Line 144: the addresses of the tournament/placeholder baseline records. -/
def placeholderAddrs (st : Store) (addrs : List Nat) : List Nat :=
  addrs.filter fun a => isPlaceholder (getC st a)

/-- `g["phase"] = g.get("phase") or "regular"` (line 152). -/
def phaseOrRegular : Option String → String
  | none => "regular"
  | some "" => "regular"
  | some p => p

/-- The per-record effect of the stable-id loop (lines 151-153). -/
def assignId (g : Game) : Game :=
  let ph := phaseOrRegular g.phase
  { g with phase := some ph, stable_id := stable_id g.date g.opponent ph }

/-- The stable-id loop over the `games_new` addresses, mutating the heap. -/
def assignAll (st : Store) (addrs : List Nat) : Store :=
  addrs.foldl (fun st a => setC st a (assignId (getC st a))) st

/-- `old_by_id = {g.get("stable_id", ""): g for g in games_old if
g.get("stable_id")}` (line 156), built over the (by then mutated) heap. -/
def buildOldById (st : Store) (addrs : List Nat) : List (String × Nat) :=
  addrs.filterMap fun a =>
    let g := getC st a
    if g.stable_id ≠ "" then some (g.stable_id, a) else none

/-- One entry of the `changed` list (lines 157-164). -/
structure ChangeEntry where
  stable_id : String
  date : String
  opponent : String
  changes : List FieldChange
deriving DecidableEq

structure DiffOut where
  changed : List ChangeEntry
  unchanged : Nat
deriving DecidableEq

/-- The diff loop (lines 157-166): each new record whose stable id occurs in
`old_by_id` is compared field by field against the old record. -/
def diffLoop (st : Store) (oldById : List (String × Nat)) (addrs : List Nat) : DiffOut :=
  addrs.foldl
    (fun acc a =>
      let g := getC st a
      match pyLookup oldById g.stable_id with
      | some b =>
        let d := diff_game (getC st b) g
        if d ≠ [] then
          { acc with changed := acc.changed ++ [⟨g.stable_id, g.date, g.opponent, d⟩] }
        else { acc with unchanged := acc.unchanged + 1 }
      | none => acc)
    ⟨[], 0⟩

structure MDOut where
  games_new : List Game
  changed : List ChangeEntry
  unchanged : Nat
  warnings : List String
deriving DecidableEq

/-- Lines 116-166 of `main`: load the baseline into the heap, run the
best-effort merge (skipped with a warning when the fetch failed), recompute
phases and stable ids in place, then diff against `games_old` — which, due
to the in-place mutation, aliases the merged records. -/
def mergeAndDiff (games_old : List Game) (fetchResult : Except String (List Fetched)) :
    MDOut :=
  let st0 : Store := games_old
  let oldAddrs := List.range games_old.length
  let step :=
    match fetchResult with
    | .error e => (st0, oldAddrs, ["ESPN scrape failed: " ++ e])
    | .ok espn =>
      let idx := buildIndex st0 oldAddrs
      let ms := mergeLoop idx espn ⟨st0, []⟩
      (ms.store, ms.merged ++ placeholderAddrs ms.store oldAddrs, ([] : List String))
  let st1 := assignAll step.1 step.2.1
  let oldById := buildOldById st1 oldAddrs
  let d := diffLoop st1 oldById step.2.1
  { games_new := step.2.1.map (getC st1), changed := d.changed,
    unchanged := d.unchanged, warnings := step.2.2 }

/-- The store as it stands right after the merge loop (lines 125-142). -/
def mergeStoreOf (games_old : List Game) (espn : List Fetched) : Store :=
  (mergeLoop (buildIndex games_old (List.range games_old.length)) espn ⟨games_old, []⟩).store

/-- The record list produced by the merge loop alone (lines 125-142),
resolved against the store as it stands right after the loop. -/
def mergedRegularOutput (games_old : List Game) (espn : List Fetched) : List Game :=
  (mergeLoop (buildIndex games_old (List.range games_old.length)) espn
      ⟨games_old, []⟩).merged.map (getC (mergeStoreOf games_old espn))

/-- `games_new = merged_regular + placeholders` (lines 144-145), resolved
against the store as it stands right after the merge loop. -/
def mergeOutput (games_old : List Game) (espn : List Fetched) : List Game :=
  ((mergeLoop (buildIndex games_old (List.range games_old.length)) espn
      ⟨games_old, []⟩).merged
    ++ placeholderAddrs (mergeStoreOf games_old espn) (List.range games_old.length)).map
    (getC (mergeStoreOf games_old espn))

/-! ### The sync phase and the whole of `main` (lines 94-298) -/

/-- Stable insertion of a game into a date-sorted list, placing it after
every game whose date is not greater — the ordering `sorted(..., key=date)`
produces. -/
def insertByDate (g : Game) : List Game → List Game
  | [] => [g]
  | h :: t => if strLt g.date h.date then g :: h :: t else h :: insertByDate g t

/-- `sorted(games_new, key=lambda x: x["date"])` (a stable ascending sort). -/
def sortByDate (l : List Game) : List Game :=
  l.foldl (fun acc g => insertByDate g acc) []

structure SyncState where
  created : Nat
  updated : Nat
  attempted : List String
  failure : Option String
deriving DecidableEq

/-- The per-game loop of the sync phase (lines 192-199) together with
`upsert_event` from `scripts/gcal.py`: look the stable id up in
`existing_by_stable`, patch when found, insert otherwise.  `apiFail` injects
the external API outcome per stable id; an exception propagates out of the
loop body, so the loop stops at the first failure. -/
def syncLoop (existing : List (String × String)) (apiFail : String → Option String) :
    List Game → SyncState → SyncState
  | [], s => s
  | g :: rest, s =>
    let s1 := { s with attempted := s.attempted ++ [g.stable_id] }
    match apiFail g.stable_id with
    | some e => { s1 with failure := some e }
    | none =>
      match pyLookup existing g.stable_id with
      | some _ => syncLoop existing apiFail rest { s1 with updated := s1.updated + 1 }
      | none => syncLoop existing apiFail rest { s1 with created := s1.created + 1 }

/-- The run summary dict (lines 212-224); the timestamp and path fields are
outside the model. -/
structure Summary where
  status : String
  record : String
  created : Nat
  updated : Nat
  unchanged : Nat
  errors : Nat
  changed_games : List ChangeEntry
  warnings : List String
deriving DecidableEq

/-- The injectable environment of one run: lock acquisition outcome, the
baseline-load outcome (`load_json` raises when the file is missing or
unparsable), the scrape outcome, the `save_json` outcome, the sync-phase
setup outcome (credentials / calendar / event-window fetch, yielding
`existing_by_stable`), and the per-stable-id API outcome. -/
structure RunInput where
  lockOk : Bool
  loadResult : Except String (List Game)
  fetchResult : Except String (List Fetched)
  saveOk : Except String Unit
  syncSetup : Except String (List (String × String))
  apiFail : String → Option String

/-- The observable outcome of one run of `main`. -/
structure RunResult where
  lockAcquired : Bool
  lockReleased : Bool
  uncaught : Option String
  savedGames : Option (List Game)
  attempted : List String
  summary : Option Summary

/-- `main` (lines 94-298).  The lock-timeout path returns before any state
is touched; a `load_json` or `save_json` failure is uncaught and escapes
`main` before `lock.release()` on line 298 is reached; the scrape and the
whole sync phase each sit in their own `try/except`; `errors` is only ever
incremented by the sync phase's single handler; `status` is computed on
line 206. -/
def runMain (inp : RunInput) : RunResult :=
  if inp.lockOk = false then
    { lockAcquired := false, lockReleased := false, uncaught := none,
      savedGames := none, attempted := [], summary := none }
  else
    match inp.loadResult with
    | .error e =>
      { lockAcquired := true, lockReleased := false, uncaught := some e,
        savedGames := none, attempted := [], summary := none }
    | .ok games_old =>
      let md := mergeAndDiff games_old inp.fetchResult
      match inp.saveOk with
      | .error e =>
        { lockAcquired := true, lockReleased := false, uncaught := some e,
          savedGames := none, attempted := [], summary := none }
      | .ok _ =>
        let sync :=
          match inp.syncSetup with
          | .error e => (0, 0, ([] : List String), 1, ["Google Calendar update failed: " ++ e])
          | .ok existing =>
            let s := syncLoop existing inp.apiFail (sortByDate md.games_new) ⟨0, 0, [], none⟩
            match s.failure with
            | some e =>
              (s.created, s.updated, s.attempted, 1, ["Google Calendar update failed: " ++ e])
            | none => (s.created, s.updated, s.attempted, 0, ([] : List String))
        let errors := sync.2.2.2.1
        let status := if errors = 0 then "ok" else "error"
        let wl := calculate_record (sortByDate md.games_new) "9999-12-31"
        { lockAcquired := true, lockReleased := true, uncaught := none,
          savedGames := some md.games_new, attempted := sync.2.2.1,
          summary := some
            { status := status, record := toString wl.1 ++ "-" ++ toString wl.2,
              created := sync.1, updated := sync.2.1, unchanged := md.unchanged,
              errors := errors, changed_games := md.changed.take 200,
              warnings := md.warnings ++ sync.2.2.2.2 } }

/-! ### Concrete inputs used by the claim-level theorems -/

/-- A persisted baseline record with an empty `tv`. -/
def c1Baseline : Game :=
  { date := "2025-11-01", opponent := "IU", location := "", phase := some "regular",
    tv := "", result := "", notes := "", stable_id := "2025-11-01-iu-regular" }

/-- A fetched record for the same `(date, opponent)` key supplying `tv="ESPN"`. -/
def c1Fetch : Fetched :=
  { date := "2025-11-01", opponent := "IU", tv := "ESPN", result := "" }

def c2GameA : Game :=
  { date := "2025-11-01", opponent := "Alpha", location := "", phase := some "regular",
    tv := "", result := "", notes := "", stable_id := "2025-11-01-alpha-regular" }

def c2GameB : Game :=
  { date := "2025-11-02", opponent := "Beta", location := "", phase := some "regular",
    tv := "", result := "", notes := "", stable_id := "2025-11-02-beta-regular" }

/-- A run whose sync phase faces two candidates and whose external API
fails on the first candidate's call only. -/
def c2Input : RunInput :=
  { lockOk := true, loadResult := .ok [c2GameA, c2GameB], fetchResult := .error "down",
    saveOk := .ok (), syncSetup := .ok [],
    apiFail := fun sid =>
      if sid = "2025-11-01-alpha-regular" then some "HttpError 500" else none }

/-- A second-candidate-only failure, for the witness of the amended C2. -/
def c2InputW : RunInput :=
  { lockOk := true, loadResult := .ok [c2GameA, c2GameB], fetchResult := .error "down",
    saveOk := .ok (), syncSetup := .ok [],
    apiFail := fun sid =>
      if sid = "2025-11-02-beta-regular" then some "HttpError 500" else none }

/-- A run in which `load_json` raises after the lock was acquired. -/
def c3Input : RunInput :=
  { lockOk := true, loadResult := .error "FileNotFoundError: data/schedule.json",
    fetchResult := .error "down", saveOk := .ok (), syncSetup := .ok [],
    apiFail := fun _ => none }

/-- A run that completes normally, for the witness of the amended C3. -/
def c3InputW : RunInput :=
  { lockOk := true, loadResult := .ok [], fetchResult := .ok [], saveOk := .ok (),
    syncSetup := .ok [], apiFail := fun _ => none }

def c4Game : Game :=
  { date := "2025-11-01", opponent := "Alpha", location := "", phase := some "regular",
    tv := "", result := "", notes := "", stable_id := "2025-11-01-alpha-regular" }

/-- A run whose source fetch fails entirely while everything else succeeds. -/
def c4Input : RunInput :=
  { lockOk := true, loadResult := .ok [c4Game], fetchResult := .error "connection refused",
    saveOk := .ok (), syncSetup := .ok [], apiFail := fun _ => none }

/-- An empty successful run, for the C5 witness. -/
def c5InputW : RunInput :=
  { lockOk := true, loadResult := .ok [], fetchResult := .ok [], saveOk := .ok (),
    syncSetup := .ok [], apiFail := fun _ => none }

/-- The summary the empty successful run produces. -/
def c5SummaryW : Summary :=
  { status := "ok", record := "0-0", created := 0, updated := 0, unchanged := 0,
    errors := 0, changed_games := [], warnings := [] }

def c9Games : List Game :=
  [{ defaultGame with date := "2025-11-01", result := "W 70-60" },
   { defaultGame with date := "2025-11-02", result := "L 55-60" },
   { defaultGame with date := "2025-11-03", result := "W 80-75" }]

def c10GameA : Game := { defaultGame with date := "2025-11-02", result := "W 70-60" }

def c10GameB : Game := { defaultGame with date := "2025-11-01", result := "L 55-60" }

/-- The `(date, opponent)` merge key of a fetched record. -/
def fkey (eg : Fetched) : String × String := (eg.date, eg.opponent)

/-- The `(date, opponent)` merge key of a baseline record. -/
def gkey (g : Game) : String × String := (g.date, g.opponent)

/-- A baseline record with locally curated `location` and `notes`. -/
def c6Baseline : Game :=
  { date := "2025-11-07", opponent := "State U", location := "Mackey Arena",
    phase := some "regular", tv := "", result := "", notes := "home opener",
    stable_id := "2025-11-07-state-u-regular" }

/-- A fetched record for the same key supplying only a `tv` value (the
scraper has no `notes` field at all, and its `result` here is empty). -/
def c6Fetch : Fetched :=
  { date := "2025-11-07", opponent := "State U", tv := "BTN", result := "" }

def c7Regular : Game :=
  { date := "2025-11-07", opponent := "State U", location := "", phase := some "regular",
    tv := "", result := "", notes := "", stable_id := "" }

/-- A tournament placeholder record in the baseline. -/
def c7Placeholder : Game :=
  { date := "2026-03-18", opponent := "TBD", location := "", phase := some "ncaa_tournament",
    tv := "", result := "", notes := "March Madness", stable_id := "" }

def c7Fetch : Fetched :=
  { date := "2025-12-01", opponent := "New Opp", tv := "", result := "" }

/-! ### Helper lemmas -/

theorem not_prefixOf_W_and_L (l : List Char) :
    ¬(prefixOf ['W'] l = true ∧ prefixOf ['L'] l = true) := by
  cases l with
  | nil => simp [prefixOf]
  | cons c cs =>
    simp only [prefixOf, Bool.and_eq_true, beq_iff_eq]
    rintro ⟨⟨h1, _⟩, ⟨h2, _⟩⟩
    exact absurd (h1.trans h2.symm) (by decide)

theorem not_startsWith_W_and_L (r : String) :
    ¬(strStartsWith r "W" = true ∧ strStartsWith r "L" = true) :=
  fun h => not_prefixOf_W_and_L r.data h

theorem calculate_record_foldl (upTo : String) :
    ∀ (games : List Game) (a b : Nat),
      games.foldl (recordStep upTo) (a, b) =
        (a + (games.filter fun g => !strLt upTo g.date && strStartsWith g.result "W").length,
         b + (games.filter fun g => !strLt upTo g.date && strStartsWith g.result "L").length) := by
  intro games
  induction games with
  | nil => simp
  | cons g gs ih =>
    intro a b
    by_cases h1 : strLt upTo g.date
    · have e1 : recordStep upTo (a, b) g = (a, b) := by simp [recordStep, h1]
      have f2 : (g :: gs).filter (fun g => !strLt upTo g.date && strStartsWith g.result "W")
          = gs.filter (fun g => !strLt upTo g.date && strStartsWith g.result "W") := by
        simp [List.filter_cons, h1]
      have f3 : (g :: gs).filter (fun g => !strLt upTo g.date && strStartsWith g.result "L")
          = gs.filter (fun g => !strLt upTo g.date && strStartsWith g.result "L") := by
        simp [List.filter_cons, h1]
      rw [List.foldl_cons, e1, ih a b, f2, f3]
    · by_cases h2 : strStartsWith g.result "W"
      · have h3 : strStartsWith g.result "L" = false :=
          Bool.eq_false_iff.mpr fun h => not_startsWith_W_and_L g.result ⟨h2, h⟩
        have e1 : recordStep upTo (a, b) g = (a + 1, b) := by simp [recordStep, h1, h2]
        have f2 : (g :: gs).filter (fun g => !strLt upTo g.date && strStartsWith g.result "W")
            = g :: gs.filter (fun g => !strLt upTo g.date && strStartsWith g.result "W") := by
          simp [List.filter_cons, h1, h2]
        have f3 : (g :: gs).filter (fun g => !strLt upTo g.date && strStartsWith g.result "L")
            = gs.filter (fun g => !strLt upTo g.date && strStartsWith g.result "L") := by
          simp [List.filter_cons, h1, h3]
        rw [List.foldl_cons, e1, ih (a + 1) b, f2, f3]
        simp only [List.length_cons, Prod.mk.injEq]
        exact ⟨by omega, trivial⟩
      · by_cases h3 : strStartsWith g.result "L"
        · have e1 : recordStep upTo (a, b) g = (a, b + 1) := by
            simp [recordStep, h1, h2, h3]
          have f2 : (g :: gs).filter (fun g => !strLt upTo g.date && strStartsWith g.result "W")
              = gs.filter (fun g => !strLt upTo g.date && strStartsWith g.result "W") := by
            simp [List.filter_cons, h1, h2]
          have f3 : (g :: gs).filter (fun g => !strLt upTo g.date && strStartsWith g.result "L")
              = g :: gs.filter (fun g => !strLt upTo g.date && strStartsWith g.result "L") := by
            simp [List.filter_cons, h1, h3]
          rw [List.foldl_cons, e1, ih a (b + 1), f2, f3]
          simp only [List.length_cons, Prod.mk.injEq]
          exact ⟨trivial, by omega⟩
        · have e1 : recordStep upTo (a, b) g = (a, b) := by simp [recordStep, h1, h2, h3]
          have f2 : (g :: gs).filter (fun g => !strLt upTo g.date && strStartsWith g.result "W")
              = gs.filter (fun g => !strLt upTo g.date && strStartsWith g.result "W") := by
            simp [List.filter_cons, h1, h2]
          have f3 : (g :: gs).filter (fun g => !strLt upTo g.date && strStartsWith g.result "L")
              = gs.filter (fun g => !strLt upTo g.date && strStartsWith g.result "L") := by
            simp [List.filter_cons, h1, h3]
          rw [List.foldl_cons, e1, ih a b, f2, f3]

theorem calculate_record_eq_counts (games : List Game) (upTo : String) :
    calculate_record games upTo =
      ((games.filter fun g => !strLt upTo g.date && strStartsWith g.result "W").length,
       (games.filter fun g => !strLt upTo g.date && strStartsWith g.result "L").length) := by
  simpa using calculate_record_foldl upTo games 0 0

theorem charsLt_trichotomy : ∀ l1 l2 : List Char,
    charsLt l1 l2 = false ↔ (charsLt l2 l1 = true ∨ l1 = l2) := by
  intro l1
  induction l1 with
  | nil =>
    intro l2
    cases l2 <;> simp [charsLt]
  | cons a as ih =>
    intro l2
    cases l2 with
    | nil => simp [charsLt]
    | cons b bs =>
      simp only [charsLt]
      rcases lt_trichotomy a b with h | h | h
      · have h1 : ¬ b < a := lt_asymm h
        simp only [if_pos h, if_neg h1, List.cons.injEq]
        simp [ne_of_lt h]
      · subst h
        simp only [if_neg (lt_irrefl a), List.cons.injEq, true_and]
        exact (ih bs).trans (by tauto)
      · have h1 : ¬ a < b := lt_asymm h
        simp [h, h1]

theorem strLt_trichotomy (a b : String) :
    strLt a b = false ↔ (strLt b a = true ∨ a = b) := by
  rw [String.ext_iff]
  exact charsLt_trichotomy a.data b.data

theorem ifStatus (E : Nat) :
    ((if E = 0 then "ok" else "error") = "error" ↔ 0 < E)
    ∧ ((if E = 0 then "ok" else "error") = "ok" ↔ E = 0) := by
  by_cases hE : E = 0 <;> simp [hE]
  omega

/-! ### Claim-level theorems -/

/-- C9: for every list of game records and cutoff date, `calculate_record`
counts exactly the games with `date <= cutoff` whose result starts with
`"W"` as wins and those starting with `"L"` as losses, ignoring all others;
the skip guard `strLt upTo g.date = false` is exactly `g.date <= upTo`
(second conjunct); and on the ordered result sequence
`["W 70-60", "L 55-60", "W 80-75"]` over ascending dates the cumulative
records as of each game's date are `(1,0)`, `(1,1)`, `(2,1)`. -/
theorem calculate_record_counts_wins_losses :
    (∀ (games : List Game) (upTo : String),
      calculate_record games upTo =
        ((games.filter fun g => !strLt upTo g.date && strStartsWith g.result "W").length,
         (games.filter fun g => !strLt upTo g.date && strStartsWith g.result "L").length))
    ∧ (∀ a b : String, strLt a b = false ↔ (strLt b a = true ∨ a = b))
    ∧ (calculate_record c9Games "2025-11-01" = (1, 0)
       ∧ calculate_record c9Games "2025-11-02" = (1, 1)
       ∧ calculate_record c9Games "2025-11-03" = (2, 1)) :=
  ⟨fun games upTo => calculate_record_eq_counts games upTo,
   fun a b => strLt_trichotomy a b,
   by decide⟩

/-- C10 (implicit): `calculate_record` is order-independent — for every
permutation of the game list and every cutoff, it returns the same
`(wins, losses)` pair; the ascending-date sort is not needed for
correctness of the count. -/
theorem calculate_record_perm_invariant :
    ∀ (l l' : List Game) (upTo : String), l.Perm l' →
      calculate_record l upTo = calculate_record l' upTo := by
  intro l l' upTo h
  rw [calculate_record_eq_counts, calculate_record_eq_counts]
  exact Prod.ext ((h.filter _).length_eq) ((h.filter _).length_eq)

theorem calculate_record_perm_invariant_witness :
    calculate_record [c10GameA, c10GameB] "9999-12-31"
      = calculate_record [c10GameB, c10GameA] "9999-12-31" :=
  calculate_record_perm_invariant _ _ _ (List.Perm.swap c10GameB c10GameA [])

/-- C1: on a baseline record with `tv=""` and a fetched record for the same
`(date, opponent)` key with `tv="ESPN"`, the merged record does get
`tv="ESPN"` — but because the merge mutates the baseline dict in place, the
old record in `old_by_id` aliases the merged record, so `diff_game` compares
the record with itself: the change detector reports no change at all for
that stable id (it is counted as unchanged), not the claimed
`{tv: {from: "", to: "ESPN"}}`. -/
theorem merge_overlays_tv_but_diff_reports_nothing :
    (mergeAndDiff [c1Baseline] (Except.ok [c1Fetch])).games_new.map Game.tv = ["ESPN"]
    ∧ (mergeAndDiff [c1Baseline] (Except.ok [c1Fetch])).changed = []
    ∧ (mergeAndDiff [c1Baseline] (Except.ok [c1Fetch])).unchanged = 1 := by decide

/-- C3 counterexample: a run in which the baseline load raises after the
lock was acquired terminates by an uncaught exception with the lock still
held — `lock.release()` on line 298 is not reached. -/
theorem lock_not_released_on_load_failure :
    (runMain c3Input).lockAcquired = true
    ∧ (runMain c3Input).uncaught = some "FileNotFoundError: data/schedule.json"
    ∧ (runMain c3Input).lockReleased = false := by decide

/-- C3 amended: the lock is released on every *normal* completion after
acquisition; only an execution that escapes `main` with an uncaught
exception (baseline load or save failure) skips the release. -/
theorem lock_released_on_normal_exit :
    ∀ inp : RunInput, (runMain inp).lockAcquired = true →
      (runMain inp).uncaught = none → (runMain inp).lockReleased = true := by
  intro inp
  obtain ⟨lockOk, loadR, fetchR, saveR, setupR, apiF⟩ := inp
  cases lockOk with
  | false => intro h1 _; simp [runMain] at h1
  | true =>
    cases loadR with
    | error e => intro _ h2; simp [runMain] at h2
    | ok gold =>
      cases saveR with
      | error e => intro _ h2; simp [runMain] at h2
      | ok u => intro _ _; simp [runMain]

theorem lock_released_on_normal_exit_witness :
    (runMain c3InputW).lockReleased = true :=
  lock_released_on_normal_exit c3InputW (by decide) (by decide)

/-- C5: for every run that produces a summary, `status = "error"` iff the
error count is positive and `status = "ok"` iff it is zero, independently
of the warnings accumulated. -/
theorem status_error_iff_errors_pos :
    ∀ (inp : RunInput) (s : Summary), (runMain inp).summary = some s →
      ((s.status = "error" ↔ 0 < s.errors) ∧ (s.status = "ok" ↔ s.errors = 0)) := by
  intro inp s h
  obtain ⟨lockOk, loadR, fetchR, saveR, setupR, apiF⟩ := inp
  cases lockOk with
  | false => simp [runMain] at h
  | true =>
    cases loadR with
    | error e => simp [runMain] at h
    | ok gold =>
      cases saveR with
      | error e => simp [runMain] at h
      | ok u =>
        simp only [runMain, Bool.true_eq_false, if_false, Option.some.injEq] at h
        subst h
        exact ifStatus _

theorem status_error_iff_errors_pos_witness :
    (c5SummaryW.status = "error" ↔ 0 < c5SummaryW.errors)
    ∧ (c5SummaryW.status = "ok" ↔ c5SummaryW.errors = 0) :=
  status_error_iff_errors_pos c5InputW c5SummaryW (by decide)

/-! ### Heap lemmas -/

theorem length_setC (st : Store) (a : Nat) (g : Game) :
    (setC st a g).length = st.length := List.length_set st a g

theorem getC_set_eq : ∀ (st : Store) (a : Nat) (g : Game), a < st.length →
    getC (setC st a g) a = g := by
  intro st
  induction st with
  | nil => intro a g h; simp at h
  | cons x xs ih =>
    intro a g h
    cases a with
    | zero => rfl
    | succ n =>
      have hn : n < xs.length := by simpa using h
      simpa [getC, setC, List.getD_cons_succ] using ih n g hn

theorem getC_set_ne : ∀ (st : Store) (a b : Nat) (g : Game), a ≠ b →
    getC (setC st a g) b = getC st b := by
  intro st
  induction st with
  | nil => intro a b g _; rfl
  | cons x xs ih =>
    intro a b g hab
    cases a with
    | zero =>
      cases b with
      | zero => exact absurd rfl hab
      | succ m => simp [getC, setC, List.getD_cons_succ]
    | succ n =>
      cases b with
      | zero => simp [getC, setC, List.getD_cons_zero]
      | succ m =>
        have : n ≠ m := fun h => hab (by rw [h])
        simpa [getC, setC, List.getD_cons_succ] using ih n m g this

theorem getC_append : ∀ (st ext : Store) (b : Nat), b < st.length →
    getC (st ++ ext) b = getC st b := by
  intro st
  induction st with
  | nil => intro ext b h; simp at h
  | cons x xs ih =>
    intro ext b h
    cases b with
    | zero => rfl
    | succ m =>
      have hm : m < xs.length := by simpa using h
      simpa [getC, List.getD_cons_succ] using ih ext m hm

theorem getC_out_of_range : ∀ (st : Store) (b : Nat), st.length ≤ b →
    getC st b = defaultGame := by
  intro st
  induction st with
  | nil => intro b _; rfl
  | cons x xs ih =>
    intro b h
    cases b with
    | zero => simp at h
    | succ m =>
      have hm : xs.length ≤ m := by simpa using h
      simpa [getC, List.getD_cons_succ] using ih m hm

theorem range_map_getC : ∀ (l : List Game),
    (List.range l.length).map (fun a => getC l a) = l := by
  intro l
  induction l with
  | nil => rfl
  | cons x xs ih =>
    have h0 : getC (x :: xs) 0 = x := rfl
    calc (List.range (x :: xs).length).map (fun a => getC (x :: xs) a)
        = (0 :: (List.range xs.length).map Nat.succ).map (fun a => getC (x :: xs) a) := by
          rw [List.length_cons, List.range_succ_eq_map]
      _ = x :: ((List.range xs.length).map Nat.succ).map (fun a => getC (x :: xs) a) := by
          rw [List.map_cons, h0]
      _ = x :: (List.range xs.length).map (fun a => getC (x :: xs) (Nat.succ a)) := by
          rw [List.map_map]; rfl
      _ = x :: (List.range xs.length).map (fun a => getC xs a) := by
          simp [getC, List.getD_cons_succ]
      _ = x :: xs := by rw [ih]

/-! ### The stable-id assignment loop -/

theorem phaseOrRegular_some (p : String) (hp : p ≠ "") : phaseOrRegular (some p) = p := by
  unfold phaseOrRegular
  split
  · next h => exact absurd h (by simp)
  · next h =>
    have hpe : p = "" := by injection h
    exact absurd hpe hp
  · next h =>
    injection h with h2
    exact h2.symm

theorem phaseOrRegular_fix (op : Option String) :
    phaseOrRegular (some (phaseOrRegular op)) = phaseOrRegular op := by
  cases op with
  | none => rfl
  | some p =>
    by_cases hp : p = ""
    · subst hp; rfl
    · rw [phaseOrRegular_some p hp, phaseOrRegular_some p hp]

theorem assignId_idem (g : Game) : assignId (assignId g) = assignId g := by
  unfold assignId
  simp [phaseOrRegular_fix]

theorem length_assignAll : ∀ (addrs : List Nat) (st : Store),
    (assignAll st addrs).length = st.length := by
  intro addrs
  induction addrs with
  | nil => intro st; rfl
  | cons a addrs ih =>
    intro st
    show (assignAll (setC st a (assignId (getC st a))) addrs).length = st.length
    rw [ih, length_setC]

theorem getC_assignAll : ∀ (addrs : List Nat) (st : Store) (j : Nat),
    getC (assignAll st addrs) j =
      if j ∈ addrs ∧ j < st.length then assignId (getC st j) else getC st j := by
  intro addrs
  induction addrs with
  | nil => intro st j; simp [assignAll]
  | cons a addrs ih =>
    intro st j
    show getC (assignAll (setC st a (assignId (getC st a))) addrs) j = _
    rw [ih, length_setC]
    by_cases hja : j = a
    · subst hja
      by_cases hlen : j < st.length
      · rw [getC_set_eq st j _ hlen]
        by_cases hmem : j ∈ addrs
        · simp [hmem, hlen, assignId_idem]
        · simp [hmem, hlen]
      · have hle : st.length ≤ j := Nat.le_of_not_lt hlen
        have h1 : getC (setC st j (assignId (getC st j))) j = defaultGame := by
          apply getC_out_of_range
          rw [length_setC]; exact hle
        have h2 : getC st j = defaultGame := getC_out_of_range st j hle
        have c1 : ¬(j ∈ addrs ∧ j < st.length) := fun h => hlen h.2
        have c2 : ¬(j ∈ j :: addrs ∧ j < st.length) := fun h => hlen h.2
        rw [if_neg c1, if_neg c2, h1, h2]
    · rw [getC_set_ne st a j _ (fun h => hja h.symm)]
      by_cases hmem : j ∈ addrs
      · simp [hmem, hja]
      · have : ¬ j ∈ a :: addrs := by simp [hja, hmem]
        simp [hmem, hja]

theorem assignAll_range (st : Store) :
    assignAll st (List.range st.length) = st.map assignId := by
  have hlen : (assignAll st (List.range st.length)).length = (st.map assignId).length := by
    rw [length_assignAll, List.length_map]
  apply List.ext_getElem hlen
  intro i h1 h2
  have hi : i < st.length := by simpa using h2
  have hD : getC (assignAll st (List.range st.length)) i = assignId (getC st i) := by
    rw [getC_assignAll]
    simp [List.mem_range, hi]
  have e1 : (assignAll st (List.range st.length))[i] = getC (assignAll st (List.range st.length)) i := by
    rw [getC, List.getD_eq_getElem _ _ h1]
  have e2 : getC st i = st[i] := by
    rw [getC, List.getD_eq_getElem _ _ hi]
  rw [e1, hD, e2, List.getElem_map]

/-! ### Sync-loop lemmas -/

theorem syncLoop_first_failure (existing : List (String × String))
    (apiFail : String → Option String) :
    ∀ (pre : List Game) (g : Game) (post : List Game) (e : String) (s : SyncState),
      (∀ h ∈ pre, apiFail h.stable_id = none) →
      apiFail g.stable_id = some e →
      (syncLoop existing apiFail (pre ++ g :: post) s).attempted
          = s.attempted ++ (pre ++ [g]).map Game.stable_id
      ∧ (syncLoop existing apiFail (pre ++ g :: post) s).failure = some e := by
  intro pre
  induction pre with
  | nil =>
    intro g post e s _ hg
    rw [List.nil_append]
    simp [syncLoop, hg]
  | cons h pre ih =>
    intro g post e s hpre hg
    have hh : apiFail h.stable_id = none := hpre h (List.mem_cons_self _ _)
    have hpre2 : ∀ x ∈ pre, apiFail x.stable_id = none :=
      fun x hx => hpre x (List.mem_cons_of_mem _ hx)
    rw [List.cons_append]
    simp only [syncLoop, hh]
    cases hlk : pyLookup existing h.stable_id with
    | some v =>
      refine ⟨?_, (ih g post e _ hpre2 hg).2⟩
      rw [(ih g post e _ hpre2 hg).1]
      simp
    | none =>
      refine ⟨?_, (ih g post e _ hpre2 hg).2⟩
      rw [(ih g post e _ hpre2 hg).1]
      simp

theorem syncLoop_no_failure (existing : List (String × String))
    (apiFail : String → Option String) :
    ∀ (gs : List Game) (s : SyncState),
      (∀ g ∈ gs, apiFail g.stable_id = none) →
      (syncLoop existing apiFail gs s).attempted = s.attempted ++ gs.map Game.stable_id
      ∧ (syncLoop existing apiFail gs s).failure = s.failure := by
  intro gs
  induction gs with
  | nil => intro s _; simp [syncLoop]
  | cons g gs ih =>
    intro s hall
    have hg : apiFail g.stable_id = none := hall g (List.mem_cons_self _ _)
    have hrest : ∀ x ∈ gs, apiFail x.stable_id = none :=
      fun x hx => hall x (List.mem_cons_of_mem _ hx)
    simp only [syncLoop, hg]
    cases hlk : pyLookup existing g.stable_id with
    | some v =>
      refine ⟨?_, (ih _ hrest).2⟩
      rw [(ih _ hrest).1]
      simp
    | none =>
      refine ⟨?_, (ih _ hrest).2⟩
      rw [(ih _ hrest).1]
      simp

/-! ### The merge-skipped (fetch failure) branch of the pipeline -/

theorem mergeAndDiff_error (gold : List Game) (e : String) :
    (mergeAndDiff gold (Except.error e)).games_new = gold.map assignId
    ∧ (mergeAndDiff gold (Except.error e)).warnings = ["ESPN scrape failed: " ++ e] := by
  constructor
  · show (List.range gold.length).map (fun a => getC (assignAll gold (List.range gold.length)) a)
        = gold.map assignId
    rw [assignAll_range]
    have hlen : gold.length = (gold.map assignId).length := (List.length_map _ _).symm
    calc (List.range gold.length).map (fun a => getC (gold.map assignId) a)
        = (List.range (gold.map assignId).length).map (fun a => getC (gold.map assignId) a) := by
          rw [← hlen]
      _ = gold.map assignId := range_map_getC _
  · rfl

/-- C2 counterexample: the sync phase's two candidates are
`2025-11-01-alpha-regular` and `2025-11-02-beta-regular`; the first
candidate's API call fails, and the second candidate is never attempted —
the single `try/except` wraps the whole loop, so one item's failure aborts
the batch (it is counted once, and the run completes). -/
theorem sync_failure_skips_remaining_candidates :
    (sortByDate (mergeAndDiff [c2GameA, c2GameB] (Except.error "down")).games_new).map
        Game.stable_id = ["2025-11-01-alpha-regular", "2025-11-02-beta-regular"]
    ∧ (runMain c2Input).attempted = ["2025-11-01-alpha-regular"]
    ∧ (runMain c2Input).summary.map Summary.errors = some 1 := by decide

/-- C2 amended: when the API action for one candidate fails, the failure is
caught (the run completes, the lock is released, the error is counted once
and reflected in the status) but the batch is aborted: exactly the
candidates up to and including the failing one are attempted, and every
subsequent candidate is skipped. -/
theorem sync_failure_aborts_batch_but_completes_run :
    ∀ (inp : RunInput) (gold : List Game) (existing : List (String × String))
      (pre post : List Game) (g : Game) (e : String),
      inp.lockOk = true →
      inp.loadResult = Except.ok gold →
      inp.saveOk = Except.ok () →
      inp.syncSetup = Except.ok existing →
      sortByDate (mergeAndDiff gold inp.fetchResult).games_new = pre ++ g :: post →
      (∀ h ∈ pre, inp.apiFail h.stable_id = none) →
      inp.apiFail g.stable_id = some e →
      (runMain inp).attempted = (pre ++ [g]).map Game.stable_id
      ∧ (runMain inp).uncaught = none
      ∧ (runMain inp).lockReleased = true
      ∧ (runMain inp).summary.map Summary.errors = some 1
      ∧ (runMain inp).summary.map Summary.status = some "error" := by
  intro inp gold existing pre post g e h1 h2 h3 h4 h5 h6 h7
  obtain ⟨lockOk, loadR, fetchR, saveR, setupR, apiF⟩ := inp
  simp only at h1 h2 h3 h4 h5 h6 h7
  subst h1 h2 h3 h4
  have hfail := syncLoop_first_failure existing apiF pre g post e ⟨0, 0, [], none⟩ h6 h7
  simp only [runMain, Bool.true_eq_false, if_false, h5]
  rw [hfail.2]
  refine ⟨?_, by trivial, by trivial, by trivial, by trivial⟩
  rw [hfail.1]
  simp

theorem sync_failure_aborts_batch_but_completes_run_witness :
    (runMain c2InputW).attempted = ([c2GameA] ++ [c2GameB]).map Game.stable_id
    ∧ (runMain c2InputW).uncaught = none
    ∧ (runMain c2InputW).lockReleased = true
    ∧ (runMain c2InputW).summary.map Summary.errors = some 1
    ∧ (runMain c2InputW).summary.map Summary.status = some "error" :=
  sync_failure_aborts_batch_but_completes_run c2InputW [c2GameA, c2GameB] [] [c2GameA] []
    c2GameB "HttpError 500" rfl rfl rfl rfl (by decide) (by decide) (by decide)

/-- C4 counterexample: a run whose source fetch fails entirely while the
sync phase succeeds completes with `status="ok"` (the fetch failure is only
a warning; `errors` stays 0), the sync phase runs against the stale
baseline, and the baseline document is re-saved — contradicting the claimed
`status="error"`. -/
theorem fetch_failure_yields_status_ok :
    (runMain c4Input).summary.map Summary.status = some "ok"
    ∧ (runMain c4Input).summary.map Summary.warnings
        = some ["ESPN scrape failed: connection refused"]
    ∧ (runMain c4Input).summary.map Summary.errors = some 0
    ∧ (runMain c4Input).attempted = ["2025-11-01-alpha-regular"]
    ∧ (runMain c4Input).savedGames = some [c4Game] := by decide

/-- C4 amended: when the source fetch fails entirely and everything else
succeeds, the run still completes and releases the lock, the fetch warning
is in the warnings list, the persisted games are the baseline games with
only `phase`/`stable_id` recomputed (the overlay is skipped), the sync
phase still runs over that stale baseline, and the status is `"ok"` —
`"error"` arises only from a sync-phase failure, never from the fetch. -/
theorem fetch_failure_degrades_run :
    ∀ (inp : RunInput) (gold : List Game) (e : String) (existing : List (String × String)),
      inp.lockOk = true →
      inp.loadResult = Except.ok gold →
      inp.fetchResult = Except.error e →
      inp.saveOk = Except.ok () →
      inp.syncSetup = Except.ok existing →
      (∀ sid, inp.apiFail sid = none) →
      ∃ s, (runMain inp).summary = some s
        ∧ (runMain inp).savedGames = some (gold.map assignId)
        ∧ ("ESPN scrape failed: " ++ e) ∈ s.warnings
        ∧ (runMain inp).attempted = (sortByDate (gold.map assignId)).map Game.stable_id
        ∧ s.errors = 0 ∧ s.status = "ok"
        ∧ (runMain inp).uncaught = none ∧ (runMain inp).lockReleased = true := by
  intro inp gold e existing h1 h2 h3 h4 h5 h6
  obtain ⟨lockOk, loadR, fetchR, saveR, setupR, apiF⟩ := inp
  simp only at h1 h2 h3 h4 h5 h6
  subst h1 h2 h3 h4 h5
  have hmd := mergeAndDiff_error gold e
  have hok := syncLoop_no_failure existing apiF
    (sortByDate (mergeAndDiff gold (Except.error e)).games_new) ⟨0, 0, [], none⟩
    (fun g _ => h6 g.stable_id)
  simp only [runMain, Bool.true_eq_false, if_false]
  simp only [hok.2]
  refine ⟨_, rfl, ?_, ?_, ?_, by trivial, by trivial, by trivial, by trivial⟩
  · rw [hmd.1]
  · show ("ESPN scrape failed: " ++ e)
        ∈ (mergeAndDiff gold (Except.error e)).warnings ++ []
    rw [hmd.2]
    simp
  · rw [hok.1, hmd.1]
    simp

theorem fetch_failure_degrades_run_witness :
    ∃ s, (runMain c4Input).summary = some s
      ∧ (runMain c4Input).savedGames = some ([c4Game].map assignId)
      ∧ ("ESPN scrape failed: " ++ "connection refused") ∈ s.warnings
      ∧ (runMain c4Input).attempted = (sortByDate ([c4Game].map assignId)).map Game.stable_id
      ∧ s.errors = 0 ∧ s.status = "ok"
      ∧ (runMain c4Input).uncaught = none ∧ (runMain c4Input).lockReleased = true :=
  fetch_failure_degrades_run c4Input [c4Game] "connection refused" [] rfl rfl rfl rfl rfl
    (fun _ => rfl)

/-! ### Merge-loop lemmas -/

theorem pyLookup_mem {α β : Type} [DecidableEq α] :
    ∀ (idx : List (α × β)) (k : α) (v : β), pyLookup idx k = some v → (k, v) ∈ idx := by
  intro idx
  induction idx with
  | nil => intro k v h; simp [pyLookup] at h
  | cons p rest ih =>
    intro k v h
    obtain ⟨k0, v0⟩ := p
    simp only [pyLookup] at h
    cases hrec : pyLookup rest k with
    | some vr =>
      rw [hrec] at h
      injection h with h2
      subst h2
      exact List.mem_cons_of_mem _ (ih k _ hrec)
    | none =>
      rw [hrec] at h
      by_cases hk : k0 = k
      · rw [if_pos hk] at h
        injection h with h
        subst h hk
        exact List.mem_cons_self _ _
      · rw [if_neg hk] at h
        exact absurd h (by simp)

theorem buildIndex_found (st : Store) (addrs : List Nat) (k : String × String) (a : Nat)
    (h : pyLookup (buildIndex st addrs) k = some a) :
    a ∈ addrs ∧ phaseD (getC st a) = "regular" ∧ gkey (getC st a) = k := by
  have hmem : (k, a) ∈ buildIndex st addrs := pyLookup_mem _ k a h
  unfold buildIndex at hmem
  rw [List.mem_filterMap] at hmem
  obtain ⟨b, hb, heq⟩ := hmem
  simp only at heq
  by_cases hreg : phaseD (getC st b) = "regular"
  · rw [if_pos hreg] at heq
    injection heq with h2
    rw [Prod.ext_iff] at h2
    obtain ⟨hk, hba⟩ := h2
    subst hba
    exact ⟨hb, hreg, hk⟩
  · rw [if_neg hreg] at heq
    exact absurd heq (by simp)

/-- The overlay of lines 138-141 touches only `tv` and `result`, each only
when the fetched value is non-empty. -/
theorem overlay_fields (b : Game) (eg : Fetched) :
    (overlayResult (overlayTv b eg) eg).date = b.date
    ∧ (overlayResult (overlayTv b eg) eg).opponent = b.opponent
    ∧ (overlayResult (overlayTv b eg) eg).location = b.location
    ∧ (overlayResult (overlayTv b eg) eg).phase = b.phase
    ∧ (overlayResult (overlayTv b eg) eg).notes = b.notes
    ∧ (overlayResult (overlayTv b eg) eg).stable_id = b.stable_id
    ∧ (overlayResult (overlayTv b eg) eg).tv = (if eg.tv = "" then b.tv else eg.tv)
    ∧ (overlayResult (overlayTv b eg) eg).result
        = (if eg.result = "" then b.result else eg.result) := by
  unfold overlayTv overlayResult
  by_cases ht : eg.tv = "" <;> by_cases hr : eg.result = "" <;> simp [ht, hr]

theorem overlay_gkey (b : Game) (eg : Fetched) :
    gkey (overlayResult (overlayTv b eg) eg) = gkey b := by
  have h := overlay_fields b eg
  unfold gkey
  rw [h.1, h.2.1]

theorem mergeOne_length (idx : List ((String × String) × Nat)) (ms : MergeState)
    (eg : Fetched) : ms.store.length ≤ (mergeOne idx ms eg).store.length := by
  unfold mergeOne
  cases h : pyLookup idx (eg.date, eg.opponent) with
  | some a => simp [setC]
  | none => simp

theorem mergeLoop_length (idx : List ((String × String) × Nat)) :
    ∀ (egs : List Fetched) (ms : MergeState),
      ms.store.length ≤ (mergeLoop idx egs ms).store.length := by
  intro egs
  induction egs with
  | nil => intro ms; exact Nat.le_refl _
  | cons eg egs ih =>
    intro ms
    exact (mergeOne_length idx ms eg).trans (ih (mergeOne idx ms eg))

theorem getC_append_self : ∀ (st : Store) (x : Game), getC (st ++ [x]) st.length = x := by
  intro st x
  induction st with
  | nil => rfl
  | cons y ys ih =>
    show getC (y :: (ys ++ [x])) (ys.length + 1) = x
    rw [getC, List.getD_cons_succ]
    exact ih

theorem mergeOne_merged (idx : List ((String × String) × Nat)) (ms : MergeState)
    (eg : Fetched) : ∃ x, (mergeOne idx ms eg).merged = ms.merged ++ [x] := by
  unfold mergeOne
  cases h : pyLookup idx (eg.date, eg.opponent) with
  | some a => exact ⟨a, rfl⟩
  | none => exact ⟨ms.store.length, rfl⟩

theorem mergeLoop_merged_extends (idx : List ((String × String) × Nat)) :
    ∀ (egs : List Fetched) (ms : MergeState),
      ∃ tl, (mergeLoop idx egs ms).merged = ms.merged ++ tl := by
  intro egs
  induction egs with
  | nil => intro ms; exact ⟨[], by simp [mergeLoop]⟩
  | cons eg egs ih =>
    intro ms
    obtain ⟨x, hx⟩ := mergeOne_merged idx ms eg
    obtain ⟨tl, htl⟩ := ih (mergeOne idx ms eg)
    refine ⟨[x] ++ tl, ?_⟩
    calc (mergeLoop idx (eg :: egs) ms).merged
        = (mergeLoop idx egs (mergeOne idx ms eg)).merged := rfl
      _ = (mergeOne idx ms eg).merged ++ tl := htl
      _ = (ms.merged ++ [x]) ++ tl := by rw [hx]
      _ = ms.merged ++ ([x] ++ tl) := by rw [List.append_assoc]

theorem mergeLoop_untouched (idx : List ((String × String) × Nat)) :
    ∀ (egs : List Fetched) (ms : MergeState) (b : Nat),
      b < ms.store.length →
      (∀ eg ∈ egs, pyLookup idx (eg.date, eg.opponent) ≠ some b) →
      getC (mergeLoop idx egs ms).store b = getC ms.store b := by
  intro egs
  induction egs with
  | nil => intro ms b _ _; rfl
  | cons eg egs ih =>
    intro ms b hb hall
    have hstep : getC (mergeOne idx ms eg).store b = getC ms.store b := by
      unfold mergeOne
      cases h : pyLookup idx (eg.date, eg.opponent) with
      | some a =>
        have hab : a ≠ b := fun hh => hall eg (List.mem_cons_self _ _) (hh ▸ h)
        exact getC_set_ne ms.store a b _ hab
      | none => exact getC_append ms.store _ b hb
    have hb2 : b < (mergeOne idx ms eg).store.length :=
      lt_of_lt_of_le hb (mergeOne_length idx ms eg)
    have hall2 : ∀ x ∈ egs, pyLookup idx (x.date, x.opponent) ≠ some b :=
      fun x hx => hall x (List.mem_cons_of_mem _ hx)
    calc getC (mergeLoop idx (eg :: egs) ms).store b
        = getC (mergeLoop idx egs (mergeOne idx ms eg)).store b := rfl
      _ = getC (mergeOne idx ms eg).store b := ih (mergeOne idx ms eg) b hb2 hall2
      _ = getC ms.store b := hstep

/-- At a matched key, the merge loop rewrites exactly the looked-up cell
with the overlay of the fetched fields, and records that cell's address in
the merged list; records with other keys never touch that cell. -/
theorem mergeLoop_matched (idx : List ((String × String) × Nat)) (st0 : Store)
    (pre post : List Fetched) (eg : Fetched) (a : Nat)
    (ha : a < st0.length)
    (hlk : pyLookup idx (eg.date, eg.opponent) = some a)
    (hpre : ∀ x ∈ pre, pyLookup idx (x.date, x.opponent) ≠ some a)
    (hpost : ∀ x ∈ post, pyLookup idx (x.date, x.opponent) ≠ some a) :
    getC (mergeLoop idx (pre ++ eg :: post) ⟨st0, []⟩).store a
        = overlayResult (overlayTv (getC st0 a) eg) eg
    ∧ a ∈ (mergeLoop idx (pre ++ eg :: post) ⟨st0, []⟩).merged := by
  have hsplit : mergeLoop idx (pre ++ eg :: post) (⟨st0, []⟩ : MergeState)
      = mergeLoop idx post (mergeOne idx (mergeLoop idx pre ⟨st0, []⟩) eg) := by
    unfold mergeLoop
    rw [List.foldl_append, List.foldl_cons]
  have hms1 : getC (mergeLoop idx pre (⟨st0, []⟩ : MergeState)).store a = getC st0 a :=
    mergeLoop_untouched idx pre ⟨st0, []⟩ a ha hpre
  have ha1 : a < (mergeLoop idx pre (⟨st0, []⟩ : MergeState)).store.length :=
    lt_of_lt_of_le ha (mergeLoop_length idx pre ⟨st0, []⟩)
  have hms2 : (mergeOne idx (mergeLoop idx pre ⟨st0, []⟩) eg).store
      = setC (mergeLoop idx pre ⟨st0, []⟩).store a
          (overlayResult (overlayTv (getC (mergeLoop idx pre ⟨st0, []⟩).store a) eg) eg) := by
    unfold mergeOne
    rw [hlk]
  have hmerged2 : (mergeOne idx (mergeLoop idx pre ⟨st0, []⟩) eg).merged
      = (mergeLoop idx pre ⟨st0, []⟩).merged ++ [a] := by
    unfold mergeOne
    rw [hlk]
  have hget2 : getC (mergeOne idx (mergeLoop idx pre ⟨st0, []⟩) eg).store a
      = overlayResult (overlayTv (getC st0 a) eg) eg := by
    rw [hms2, hms1]
    exact getC_set_eq _ a _ ha1
  have ha2 : a < (mergeOne idx (mergeLoop idx pre ⟨st0, []⟩) eg).store.length :=
    lt_of_lt_of_le ha1 (mergeOne_length idx _ eg)
  constructor
  · rw [hsplit, mergeLoop_untouched idx post _ a ha2 hpost, hget2]
  · rw [hsplit]
    obtain ⟨tl, htl⟩ :=
      mergeLoop_merged_extends idx post (mergeOne idx (mergeLoop idx pre ⟨st0, []⟩) eg)
    rw [htl, hmerged2]
    simp

/-- C6: for a baseline record and a fetched record with the same
`(date, opponent)` key (among fetched records with pairwise distinct keys,
which the scraper's dedup guarantees), the merger never touches the
baseline's `notes` or `location`, and overwrites `tv` / `result` only with
a non-empty fetched value; the merged record is in the merge output. -/
theorem merge_preserves_local_fields :
    ∀ (st0 : Store) (pre post : List Fetched) (eg : Fetched) (a : Nat),
      ((pre ++ eg :: post).map fkey).Nodup →
      pyLookup (buildIndex st0 (List.range st0.length)) (eg.date, eg.opponent) = some a →
      (getC (mergeStoreOf st0 (pre ++ eg :: post)) a).notes = (getC st0 a).notes
      ∧ (getC (mergeStoreOf st0 (pre ++ eg :: post)) a).location = (getC st0 a).location
      ∧ (getC (mergeStoreOf st0 (pre ++ eg :: post)) a).tv
          = (if eg.tv = "" then (getC st0 a).tv else eg.tv)
      ∧ (getC (mergeStoreOf st0 (pre ++ eg :: post)) a).result
          = (if eg.result = "" then (getC st0 a).result else eg.result)
      ∧ getC (mergeStoreOf st0 (pre ++ eg :: post)) a
          ∈ mergedRegularOutput st0 (pre ++ eg :: post) := by
  intro st0 pre post eg a hnodup hlk
  have hfound := buildIndex_found st0 (List.range st0.length) (eg.date, eg.opponent) a hlk
  have haN : a < st0.length := List.mem_range.mp hfound.1
  have hkeyA : gkey (getC st0 a) = (eg.date, eg.opponent) := hfound.2.2
  rw [List.map_append, List.map_cons] at hnodup
  have hdisj : (pre.map fkey).Disjoint (fkey eg :: post.map fkey) :=
    List.disjoint_of_nodup_append hnodup
  have hpre_ne : ∀ x ∈ pre, fkey x ≠ fkey eg := by
    intro x hx heq
    exact hdisj (List.mem_map_of_mem fkey hx) (heq ▸ List.mem_cons_self _ _)
  have hpost_nd : (fkey eg :: post.map fkey).Nodup := hnodup.of_append_right
  have hpost_ne : ∀ x ∈ post, fkey x ≠ fkey eg := by
    intro x hx heq
    exact (List.nodup_cons.mp hpost_nd).1 (heq ▸ List.mem_map_of_mem fkey hx)
  have honly : ∀ (x : Fetched), fkey x ≠ fkey eg →
      pyLookup (buildIndex st0 (List.range st0.length)) (x.date, x.opponent) ≠ some a := by
    intro x hne hx
    have h2 : gkey (getC st0 a) = (x.date, x.opponent) :=
      (buildIndex_found st0 _ (x.date, x.opponent) a hx).2.2
    apply hne
    show (x.date, x.opponent) = (eg.date, eg.opponent)
    rw [← h2, hkeyA]
  have hm := mergeLoop_matched (buildIndex st0 (List.range st0.length)) st0 pre post eg a
    haN hlk (fun x hx => honly x (hpre_ne x hx)) (fun x hx => honly x (hpost_ne x hx))
  have hov := overlay_fields (getC st0 a) eg
  have hstore : getC (mergeStoreOf st0 (pre ++ eg :: post)) a
      = overlayResult (overlayTv (getC st0 a) eg) eg := by
    unfold mergeStoreOf
    exact hm.1
  refine ⟨?_, ?_, ?_, ?_, ?_⟩
  · rw [hstore]; exact hov.2.2.2.2.1
  · rw [hstore]; exact hov.2.2.1
  · rw [hstore]; exact hov.2.2.2.2.2.2.1
  · rw [hstore]; exact hov.2.2.2.2.2.2.2
  · unfold mergedRegularOutput
    exact List.mem_map_of_mem _ hm.2

theorem merge_preserves_local_fields_witness :
    (getC (mergeStoreOf [c6Baseline] ([] ++ c6Fetch :: [])) 0).notes = (getC [c6Baseline] 0).notes
    ∧ (getC (mergeStoreOf [c6Baseline] ([] ++ c6Fetch :: [])) 0).location
        = (getC [c6Baseline] 0).location
    ∧ (getC (mergeStoreOf [c6Baseline] ([] ++ c6Fetch :: [])) 0).tv
        = (if c6Fetch.tv = "" then (getC [c6Baseline] 0).tv else c6Fetch.tv)
    ∧ (getC (mergeStoreOf [c6Baseline] ([] ++ c6Fetch :: [])) 0).result
        = (if c6Fetch.result = "" then (getC [c6Baseline] 0).result else c6Fetch.result)
    ∧ getC (mergeStoreOf [c6Baseline] ([] ++ c6Fetch :: [])) 0
        ∈ mergedRegularOutput [c6Baseline] ([] ++ c6Fetch :: []) :=
  merge_preserves_local_fields [c6Baseline] [] [] c6Fetch 0 (by decide) (by decide)

theorem overlay_phase (b : Game) (eg : Fetched) :
    (overlayResult (overlayTv b eg) eg).phase = b.phase :=
  (overlay_fields b eg).2.2.2.1

theorem mergeOne_phase (idx : List ((String × String) × Nat)) (ms : MergeState)
    (eg : Fetched) (b : Nat) (hb : b < ms.store.length) :
    (getC (mergeOne idx ms eg).store b).phase = (getC ms.store b).phase := by
  unfold mergeOne
  cases h : pyLookup idx (eg.date, eg.opponent) with
  | some a =>
    by_cases hab : a = b
    · subst hab
      rw [getC_set_eq _ a _ hb]
      exact overlay_phase _ eg
    · rw [getC_set_ne _ a b _ hab]
  | none => rw [getC_append _ _ b hb]

theorem mergeLoop_phase (idx : List ((String × String) × Nat)) :
    ∀ (egs : List Fetched) (ms : MergeState) (b : Nat), b < ms.store.length →
      (getC (mergeLoop idx egs ms).store b).phase = (getC ms.store b).phase := by
  intro egs
  induction egs with
  | nil => intro ms b _; rfl
  | cons eg egs ih =>
    intro ms b hb
    have hb2 : b < (mergeOne idx ms eg).store.length :=
      lt_of_lt_of_le hb (mergeOne_length idx ms eg)
    calc (getC (mergeLoop idx (eg :: egs) ms).store b).phase
        = (getC (mergeOne idx ms eg).store b).phase := ih (mergeOne idx ms eg) b hb2
      _ = (getC ms.store b).phase := mergeOne_phase idx ms eg b hb

theorem mergeOne_gkey (idx : List ((String × String) × Nat)) (ms : MergeState)
    (eg : Fetched) (b : Nat) (hb : b < ms.store.length) :
    gkey (getC (mergeOne idx ms eg).store b) = gkey (getC ms.store b) := by
  unfold mergeOne
  cases h : pyLookup idx (eg.date, eg.opponent) with
  | some a =>
    by_cases hab : a = b
    · subst hab
      rw [getC_set_eq _ a _ hb]
      exact overlay_gkey _ eg
    · rw [getC_set_ne _ a b _ hab]
  | none => rw [getC_append _ _ b hb]

theorem mergeLoop_gkey (idx : List ((String × String) × Nat)) :
    ∀ (egs : List Fetched) (ms : MergeState) (b : Nat), b < ms.store.length →
      gkey (getC (mergeLoop idx egs ms).store b) = gkey (getC ms.store b) := by
  intro egs
  induction egs with
  | nil => intro ms b _; rfl
  | cons eg egs ih =>
    intro ms b hb
    have hb2 : b < (mergeOne idx ms eg).store.length :=
      lt_of_lt_of_le hb (mergeOne_length idx ms eg)
    calc gkey (getC (mergeLoop idx (eg :: egs) ms).store b)
        = gkey (getC (mergeOne idx ms eg).store b) := ih (mergeOne idx ms eg) b hb2
      _ = gkey (getC ms.store b) := mergeOne_gkey idx ms eg b hb

theorem isPlaceholder_not_regular (g : Game) (h : isPlaceholder g = true) :
    phaseD g ≠ "regular" := by
  have h2 : (g.phase = some "big_ten_tournament" ∨ g.phase = some "ncaa_tournament")
      ∨ g.phase = some "placeholder" := by
    unfold isPlaceholder at h
    simpa using h
  unfold phaseD
  rcases h2 with (h1 | h1) | h1 <;> rw [h1] <;> decide

theorem placeholder_addr_not_indexed (st0 : Store) (addrs : List Nat) (p : Nat)
    (hp : isPlaceholder (getC st0 p) = true) :
    ∀ k, pyLookup (buildIndex st0 addrs) k ≠ some p := by
  intro k h
  exact isPlaceholder_not_regular _ hp (buildIndex_found st0 addrs k p h).2.1

theorem range_filter_map_getC : ∀ (l : Store) (q : Game → Bool),
    ((List.range l.length).filter (fun a => q (getC l a))).map (fun a => getC l a)
      = l.filter q := by
  intro l
  induction l with
  | nil => intro q; rfl
  | cons x xs ih =>
    intro q
    have hsucc : ∀ a : Nat, getC (x :: xs) (a + 1) = getC xs a := by
      intro a
      rw [getC, getC, List.getD_cons_succ]
    have h0 : getC (x :: xs) 0 = x := rfl
    have hmaps : ((List.range xs.length).map Nat.succ).filter (fun a => q (getC (x :: xs) a))
        = ((List.range xs.length).filter (fun a => q (getC xs a))).map Nat.succ := by
      rw [List.filter_map]
      congr 1
    have hcomp : ((List.range xs.length).filter (fun a => q (getC xs a))).map
        ((fun a => getC (x :: xs) a) ∘ Nat.succ)
        = ((List.range xs.length).filter (fun a => q (getC xs a))).map (fun a => getC xs a) := by
      apply List.map_congr_left
      intro a _
      show getC (x :: xs) (Nat.succ a) = getC xs a
      exact hsucc a
    rw [List.length_cons, List.range_succ_eq_map, List.filter_cons]
    by_cases hq : q x = true
    · rw [if_pos (show q (getC (x :: xs) 0) = true by rw [h0]; exact hq), List.map_cons, hmaps,
        List.map_map, hcomp, ih q]
      rw [List.filter_cons, if_pos hq]
      rw [h0]
    · rw [if_neg (show ¬ q (getC (x :: xs) 0) = true by rw [h0]; exact hq), hmaps,
        List.map_map, hcomp, ih q, List.filter_cons, if_neg hq]

/-- The merged list built by the loop carries, in fetch order, exactly the
`(date, opponent)` keys of the fetched records: a matched entry aliases a
baseline cell whose key the index guarantees, a fresh entry is allocated
with the fetched key, and later iterations never change a cell's key. -/
theorem mergeLoop_merged_keys (st0 : Store) :
    ∀ (egs : List Fetched) (ms : MergeState),
      st0.length ≤ ms.store.length →
      (∀ b, b < st0.length → gkey (getC ms.store b) = gkey (getC st0 b)) →
      (∀ b ∈ ms.merged, b < ms.store.length) →
      (mergeLoop (buildIndex st0 (List.range st0.length)) egs ms).merged.map
          (fun a => gkey (getC (mergeLoop (buildIndex st0 (List.range st0.length)) egs ms).store a))
        = ms.merged.map (fun b => gkey (getC ms.store b)) ++ egs.map fkey := by
  intro egs
  induction egs with
  | nil =>
    intro ms _ _ _
    simp [mergeLoop]
  | cons eg egs ih =>
    intro ms hlen hkeys hbound
    cases hlk : pyLookup (buildIndex st0 (List.range st0.length)) (eg.date, eg.opponent) with
    | some a =>
      have hfound := buildIndex_found st0 (List.range st0.length) (eg.date, eg.opponent) a hlk
      have haN : a < st0.length := List.mem_range.mp hfound.1
      have ha : a < ms.store.length := lt_of_lt_of_le haN hlen
      have hstore2 : (mergeOne (buildIndex st0 (List.range st0.length)) ms eg).store
          = setC ms.store a (overlayResult (overlayTv (getC ms.store a) eg) eg) := by
        unfold mergeOne
        rw [hlk]
      have hmerged2 : (mergeOne (buildIndex st0 (List.range st0.length)) ms eg).merged
          = ms.merged ++ [a] := by
        unfold mergeOne
        rw [hlk]
      have hget2 : ∀ b, b < ms.store.length →
          gkey (getC (mergeOne (buildIndex st0 (List.range st0.length)) ms eg).store b)
            = gkey (getC ms.store b) := by
        intro b hb
        rw [hstore2]
        by_cases hab : a = b
        · subst hab
          rw [getC_set_eq _ a _ ha]
          exact overlay_gkey _ eg
        · rw [getC_set_ne _ a b _ hab]
      have hlen2 : st0.length ≤ (mergeOne (buildIndex st0 (List.range st0.length)) ms eg).store.length := by
        rw [hstore2, length_setC]
        exact hlen
      have hkeys2 : ∀ b, b < st0.length →
          gkey (getC (mergeOne (buildIndex st0 (List.range st0.length)) ms eg).store b)
            = gkey (getC st0 b) := by
        intro b hb
        rw [hget2 b (lt_of_lt_of_le hb hlen)]
        exact hkeys b hb
      have hbound2 : ∀ b ∈ (mergeOne (buildIndex st0 (List.range st0.length)) ms eg).merged,
          b < (mergeOne (buildIndex st0 (List.range st0.length)) ms eg).store.length := by
        intro b hb
        rw [hmerged2] at hb
        rw [hstore2, length_setC]
        rcases List.mem_append.mp hb with hb1 | hb1
        · exact hbound b hb1
        · rw [List.mem_singleton.mp hb1]
          exact ha
      have hstep := ih (mergeOne (buildIndex st0 (List.range st0.length)) ms eg) hlen2 hkeys2 hbound2
      calc (mergeLoop (buildIndex st0 (List.range st0.length)) (eg :: egs) ms).merged.map
              (fun a => gkey (getC (mergeLoop (buildIndex st0 (List.range st0.length)) (eg :: egs) ms).store a))
          = (mergeOne (buildIndex st0 (List.range st0.length)) ms eg).merged.map
              (fun b => gkey (getC (mergeOne (buildIndex st0 (List.range st0.length)) ms eg).store b))
              ++ egs.map fkey := hstep
        _ = (ms.merged ++ [a]).map
              (fun b => gkey (getC (mergeOne (buildIndex st0 (List.range st0.length)) ms eg).store b))
              ++ egs.map fkey := by rw [hmerged2]
        _ = (ms.merged.map (fun b => gkey (getC ms.store b)) ++ [fkey eg]) ++ egs.map fkey := by
              rw [List.map_append]
              congr 1
              · congr 1
                · apply List.map_congr_left
                  intro b hb
                  exact hget2 b (hbound b hb)
                · rw [List.map_singleton]
                  congr 1
                  rw [hget2 a ha, hkeys a haN]
                  exact hfound.2.2
        _ = ms.merged.map (fun b => gkey (getC ms.store b)) ++ (eg :: egs).map fkey := by
              rw [List.map_cons, List.append_assoc]
              rfl
    | none =>
      have hstore2 : (mergeOne (buildIndex st0 (List.range st0.length)) ms eg).store
          = ms.store ++ [overlayResult (overlayTv (skeleton eg) eg) eg] := by
        unfold mergeOne
        rw [hlk]
      have hmerged2 : (mergeOne (buildIndex st0 (List.range st0.length)) ms eg).merged
          = ms.merged ++ [ms.store.length] := by
        unfold mergeOne
        rw [hlk]
      have hget2 : ∀ b, b < ms.store.length →
          getC (mergeOne (buildIndex st0 (List.range st0.length)) ms eg).store b
            = getC ms.store b := by
        intro b hb
        rw [hstore2]
        exact getC_append _ _ b hb
      have hnew : gkey (getC (mergeOne (buildIndex st0 (List.range st0.length)) ms eg).store
          ms.store.length) = fkey eg := by
        rw [hstore2, getC_append_self, overlay_gkey]
        rfl
      have hlen2 : st0.length ≤ (mergeOne (buildIndex st0 (List.range st0.length)) ms eg).store.length := by
        rw [hstore2, List.length_append]
        exact hlen.trans (Nat.le_add_right _ _)
      have hkeys2 : ∀ b, b < st0.length →
          gkey (getC (mergeOne (buildIndex st0 (List.range st0.length)) ms eg).store b)
            = gkey (getC st0 b) := by
        intro b hb
        rw [hget2 b (lt_of_lt_of_le hb hlen)]
        exact hkeys b hb
      have hbound2 : ∀ b ∈ (mergeOne (buildIndex st0 (List.range st0.length)) ms eg).merged,
          b < (mergeOne (buildIndex st0 (List.range st0.length)) ms eg).store.length := by
        intro b hb
        rw [hmerged2] at hb
        rw [hstore2, List.length_append, List.length_singleton]
        rcases List.mem_append.mp hb with hb1 | hb1
        · exact lt_of_lt_of_le (hbound b hb1) (Nat.le_add_right _ _)
        · rw [List.mem_singleton.mp hb1]
          exact Nat.lt_succ_self _
      have hstep := ih (mergeOne (buildIndex st0 (List.range st0.length)) ms eg) hlen2 hkeys2 hbound2
      calc (mergeLoop (buildIndex st0 (List.range st0.length)) (eg :: egs) ms).merged.map
              (fun a => gkey (getC (mergeLoop (buildIndex st0 (List.range st0.length)) (eg :: egs) ms).store a))
          = (mergeOne (buildIndex st0 (List.range st0.length)) ms eg).merged.map
              (fun b => gkey (getC (mergeOne (buildIndex st0 (List.range st0.length)) ms eg).store b))
              ++ egs.map fkey := hstep
        _ = (ms.merged ++ [ms.store.length]).map
              (fun b => gkey (getC (mergeOne (buildIndex st0 (List.range st0.length)) ms eg).store b))
              ++ egs.map fkey := by rw [hmerged2]
        _ = (ms.merged.map (fun b => gkey (getC ms.store b)) ++ [fkey eg]) ++ egs.map fkey := by
              rw [List.map_append]
              congr 1
              · congr 1
                · apply List.map_congr_left
                  intro b hb
                  rw [hget2 b (hbound b hb)]
                · exact congrArg (fun z => [z]) hnew
        _ = ms.merged.map (fun b => gkey (getC ms.store b)) ++ (eg :: egs).map fkey := by
              rw [List.map_cons, List.append_assoc]
              rfl

/-- C7: baseline records whose phase is one of the three non-regular values
pass through the merger unchanged, independent of the fetched records: the
merge output is the merged regular records (whose `(date, opponent)` keys
are exactly the fetched keys, in fetch order) concatenated with the
unchanged placeholders, and every such placeholder record appears in the
output as is. -/
theorem placeholder_passthrough :
    ∀ (st0 : Store) (espn : List Fetched),
      mergeOutput st0 espn = mergedRegularOutput st0 espn ++ st0.filter isPlaceholder
      ∧ (∀ g ∈ st0, isPlaceholder g = true → g ∈ mergeOutput st0 espn)
      ∧ (mergedRegularOutput st0 espn).map gkey = espn.map fkey := by
  intro st0 espn
  have hphase : ∀ a : Nat, a < st0.length →
      (getC (mergeStoreOf st0 espn) a).phase = (getC st0 a).phase := by
    intro a ha
    unfold mergeStoreOf
    exact mergeLoop_phase _ espn ⟨st0, []⟩ a ha
  have hplaceEq : ∀ a : Nat, a < st0.length →
      isPlaceholder (getC (mergeStoreOf st0 espn) a) = isPlaceholder (getC st0 a) := by
    intro a ha
    unfold isPlaceholder
    rw [hphase a ha]
  have hAddrs : placeholderAddrs (mergeStoreOf st0 espn) (List.range st0.length)
      = placeholderAddrs st0 (List.range st0.length) := by
    unfold placeholderAddrs
    apply List.filter_congr
    intro a ha
    exact hplaceEq a (List.mem_range.mp ha)
  have hUntouched : ∀ a : Nat, a < st0.length → isPlaceholder (getC st0 a) = true →
      getC (mergeStoreOf st0 espn) a = getC st0 a := by
    intro a ha hpa
    unfold mergeStoreOf
    exact mergeLoop_untouched _ espn ⟨st0, []⟩ a ha
      (fun eg _ => placeholder_addr_not_indexed st0 _ a hpa _)
  have hMapPh : (placeholderAddrs st0 (List.range st0.length)).map
      (fun a => getC (mergeStoreOf st0 espn) a) = st0.filter isPlaceholder := by
    have h1 : (placeholderAddrs st0 (List.range st0.length)).map
        (fun a => getC (mergeStoreOf st0 espn) a)
        = (placeholderAddrs st0 (List.range st0.length)).map (fun a => getC st0 a) := by
      apply List.map_congr_left
      intro a ha
      unfold placeholderAddrs at ha
      rw [List.mem_filter] at ha
      exact hUntouched a (List.mem_range.mp ha.1) ha.2
    rw [h1]
    unfold placeholderAddrs
    exact range_filter_map_getC st0 isPlaceholder
  have hmain : mergeOutput st0 espn
      = mergedRegularOutput st0 espn ++ st0.filter isPlaceholder := by
    unfold mergeOutput
    rw [List.map_append]
    congr 1
    rw [hAddrs]
    exact hMapPh
  refine ⟨hmain, ?_, ?_⟩
  · intro g hg hpg
    rw [hmain]
    apply List.mem_append_right
    rw [List.mem_filter]
    exact ⟨hg, hpg⟩
  · have hkeys := mergeLoop_merged_keys st0 espn ⟨st0, []⟩ (Nat.le_refl _)
      (fun b _ => rfl) (by intro b hb; exact absurd hb (List.not_mem_nil b))
    unfold mergedRegularOutput mergeStoreOf
    rw [List.map_map]
    simpa [Function.comp] using hkeys

theorem placeholder_passthrough_witness :
    mergeOutput [c7Regular, c7Placeholder] [c7Fetch]
        = mergedRegularOutput [c7Regular, c7Placeholder] [c7Fetch]
          ++ [c7Regular, c7Placeholder].filter isPlaceholder
    ∧ c7Placeholder ∈ mergeOutput [c7Regular, c7Placeholder] [c7Fetch]
    ∧ (mergedRegularOutput [c7Regular, c7Placeholder] [c7Fetch]).map gkey
        = [c7Fetch].map fkey := by
  have h := placeholder_passthrough [c7Regular, c7Placeholder] [c7Fetch]
  exact ⟨h.1, h.2.1 c7Placeholder (by decide) (by decide), h.2.2⟩

/-! ### Slug lemmas: idempotence of `slug` -/

theorem mem_replRunsAux (p : Char → Bool) (sep : Char) :
    ∀ (l : List Char) (b : Bool) (c : Char),
      c ∈ replRunsAux p sep b l → c = sep ∨ p c = false := by
  intro l
  induction l with
  | nil => intro b c h; simp [replRunsAux] at h
  | cons d rest ih =>
    intro b c h
    unfold replRunsAux at h
    by_cases hd : p d = true
    · rw [if_pos hd] at h
      cases b with
      | true => exact ih true c h
      | false =>
        rcases List.mem_cons.mp h with h1 | h1
        · exact Or.inl h1
        · exact ih true c h1
    · rw [if_neg hd] at h
      rcases List.mem_cons.mp h with h1 | h1
      · subst h1
        exact Or.inr (Bool.eq_false_iff.mpr hd)
      · exact ih false c h1

theorem replRunsAux_id (p : Char → Bool) (sep : Char) :
    ∀ (l : List Char) (b : Bool), (∀ c ∈ l, p c = false) →
      replRunsAux p sep b l = l := by
  intro l
  induction l with
  | nil => intro b _; rfl
  | cons d rest ih =>
    intro b hall
    have hd : p d = false := hall d (List.mem_cons_self _ _)
    unfold replRunsAux
    rw [if_neg (by rw [hd]; exact Bool.false_ne_true)]
    rw [ih false (fun c hc => hall c (List.mem_cons_of_mem _ hc))]

theorem replRunsAux_head (p : Char → Bool) (sep : Char) :
    ∀ (l : List Char) (c : Char),
      (replRunsAux p sep true l).head? = some c → p c = false := by
  intro l
  induction l with
  | nil => intro c h; simp [replRunsAux] at h
  | cons d rest ih =>
    intro c h
    unfold replRunsAux at h
    by_cases hd : p d = true
    · rw [if_pos hd] at h
      exact ih c h
    · rw [if_neg hd] at h
      injection h with h2
      subst h2
      exact Bool.eq_false_iff.mpr hd

theorem replRunsAux_chain (p : Char → Bool) (sep : Char) (hpsep : p sep = true) :
    ∀ (l : List Char) (b : Bool),
      List.Chain' (fun x y => ¬(x = sep ∧ y = sep)) (replRunsAux p sep b l) := by
  intro l
  induction l with
  | nil => intro b; exact List.chain'_nil
  | cons d rest ih =>
    intro b
    unfold replRunsAux
    by_cases hd : p d = true
    · rw [if_pos hd]
      cases b with
      | true => exact ih true
      | false =>
        rw [if_neg (show ¬(false = true) by decide)]
        rw [List.chain'_cons']
        refine ⟨?_, ih true⟩
        intro y hy
        have hpy : p y = false := replRunsAux_head p sep rest y hy
        intro hcon
        rw [hcon.2] at hpy
        rw [hpsep] at hpy
        exact absurd hpy (by decide)
    · rw [if_neg hd]
      rw [List.chain'_cons']
      refine ⟨?_, ih false⟩
      intro y hy
      intro hcon
      rw [hcon.1] at hd
      exact hd hpsep

theorem dropWhile_id_of_head (q : Char → Bool) (l : List Char)
    (h : ∀ c, l.head? = some c → q c = false) : l.dropWhile q = l := by
  cases l with
  | nil => rfl
  | cons c rest =>
    have hc : q c = false := h c rfl
    simp [List.dropWhile, hc]

theorem stripBy_id_of_ends (q : Char → Bool) (l : List Char)
    (hhead : ∀ c, l.head? = some c → q c = false)
    (hlast : ∀ c, l.getLast? = some c → q c = false) : stripBy q l = l := by
  unfold stripBy
  rw [dropWhile_id_of_head q l hhead]
  rw [dropWhile_id_of_head q l.reverse (fun c hc => hlast c ((List.head?_reverse l) ▸ hc))]
  exact List.reverse_reverse l

theorem mem_stripBy (q : Char → Bool) (l : List Char) (c : Char)
    (h : c ∈ stripBy q l) : c ∈ l := by
  unfold stripBy at h
  rw [List.mem_reverse] at h
  have h1 : c ∈ (l.dropWhile q).reverse := (List.dropWhile_sublist q).subset h
  rw [List.mem_reverse] at h1
  exact (List.dropWhile_sublist q).subset h1

theorem head_dropWhile_false (q : Char → Bool) :
    ∀ (l : List Char) (c : Char), (l.dropWhile q).head? = some c → q c = false := by
  intro l
  induction l with
  | nil => intro c h; simp at h
  | cons d rest ih =>
    intro c h
    by_cases hd : q d = true
    · rw [List.dropWhile_cons_of_pos hd] at h
      exact ih c h
    · rw [List.dropWhile_cons_of_neg hd] at h
      injection h with h2
      subst h2
      exact Bool.eq_false_iff.mpr hd

theorem stripBy_getLast (q : Char → Bool) (l : List Char) (c : Char)
    (h : (stripBy q l).getLast? = some c) : q c = false := by
  unfold stripBy at h
  rw [← List.head?_reverse, List.reverse_reverse] at h
  exact head_dropWhile_false q _ c h

theorem stripBy_head (q : Char → Bool) (l : List Char) (c : Char)
    (h : (stripBy q l).head? = some c) : q c = false := by
  unfold stripBy at h
  rw [List.head?_reverse] at h
  obtain ⟨t, ht⟩ := List.dropWhile_suffix (l := (l.dropWhile q).reverse) q
  cases hv : (l.dropWhile q).reverse.dropWhile q with
  | nil => rw [hv] at h; exact absurd h (by simp)
  | cons e rest =>
    have hne : (l.dropWhile q).reverse.dropWhile q ≠ [] := by rw [hv]; simp
    have hw : ((l.dropWhile q).reverse).getLast? = some c := by
      rw [← ht, List.getLast?_append_of_ne_nil t hne]
      exact h
    rw [List.getLast?_reverse] at hw
    exact head_dropWhile_false q l c hw

theorem chain_stripBy (q : Char → Bool) (R : Char → Char → Prop)
    (hsym : ∀ x y, R x y → R y x) :
    ∀ l : List Char, List.Chain' R l → List.Chain' R (stripBy q l) := by
  intro l hch
  unfold stripBy
  have h1 : List.Chain' R (l.dropWhile q) := by
    obtain ⟨t, ht⟩ := List.dropWhile_suffix (l := l) q
    rw [← ht] at hch
    exact hch.right_of_append
  have h2 : List.Chain' R (l.dropWhile q).reverse := by
    rw [List.chain'_reverse]
    exact h1.imp (fun a b hab => hsym a b hab)
  have h3 : List.Chain' R ((l.dropWhile q).reverse.dropWhile q) := by
    obtain ⟨t, ht⟩ := List.dropWhile_suffix (l := (l.dropWhile q).reverse) q
    rw [← ht] at h2
    exact h2.right_of_append
  rw [List.chain'_reverse]
  exact h3.imp (fun a b hab => hsym a b hab)

theorem replRunsAux_slugged :
    ∀ (l : List Char) (b : Bool),
      (∀ c ∈ l, isLowerAlnum c = true ∨ c = '-') →
      List.Chain' (fun x y => ¬(x = '-' ∧ y = '-')) l →
      (b = true → l.head? ≠ some '-') →
      replRunsAux (fun c => !(isLowerAlnum c)) '-' b l = l := by
  intro l
  induction l with
  | nil => intro b _ _ _; rfl
  | cons d rest ih =>
    intro b hmem hch hb
    rcases hmem d (List.mem_cons_self _ _) with hd | hd
    · unfold replRunsAux
      rw [if_neg (by rw [hd]; decide)]
      congr 1
      exact ih false (fun c hc => hmem c (List.mem_cons_of_mem _ hc))
        (List.chain'_cons'.mp hch).2 (fun hf => absurd hf (by decide))
    · subst hd
      have hbf : b = false := by
        cases b with
        | false => rfl
        | true => exact absurd rfl (hb rfl)
      subst hbf
      unfold replRunsAux
      rw [if_pos (by decide), if_neg (show ¬(false = true) by decide)]
      congr 1
      apply ih true (fun c hc => hmem c (List.mem_cons_of_mem _ hc))
        (List.chain'_cons'.mp hch).2
      intro _ hhead
      have hfst := (List.chain'_cons'.mp hch).1
      exact hfst '-' (by rw [hhead]; rfl) ⟨rfl, rfl⟩

theorem ws_not_slug_char (c : Char) (h : isWs c = true) :
    isLowerAlnum c = false ∧ c ≠ '-' := by
  unfold isWs at h
  simp only [Bool.or_eq_true, beq_iff_eq] at h
  rcases h with ((((h | h) | h) | h) | h) | h <;> subst h <;> exact ⟨by decide, by decide⟩

theorem pyLower_slug_char (c : Char) (h : isLowerAlnum c = true ∨ c = '-') :
    pyLower c = c := by
  unfold pyLower
  rw [if_neg]
  rintro ⟨hA, hZ⟩
  rcases h with h | h
  · unfold isLowerAlnum at h
    simp only [Bool.or_eq_true, Bool.and_eq_true, decide_eq_true_eq] at h
    rcases h with ⟨h1, h2⟩ | ⟨h1, h2⟩
    · exact absurd (le_trans h1 hZ) (by decide)
    · exact absurd (le_trans hA h2) (by decide)
  · subst h
    exact absurd hA (by decide)

theorem mem_of_getLast_some (l : List Char) (c : Char) (h : l.getLast? = some c) :
    c ∈ l := by
  rw [← List.head?_reverse] at h
  rw [← List.mem_reverse]
  exact List.mem_of_mem_head? (by rw [h]; rfl)

theorem slugL_mem (l : List Char) :
    ∀ c ∈ slugL l, isLowerAlnum c = true ∨ c = '-' := by
  intro c hc
  unfold slugL at hc
  have h1 := mem_stripBy _ _ _ hc
  rcases mem_replRunsAux (fun c => !(isLowerAlnum c)) '-' _ false c h1 with h | h
  · exact Or.inr h
  · left
    simpa using h

theorem slugL_chain (l : List Char) :
    List.Chain' (fun x y => ¬(x = '-' ∧ y = '-')) (slugL l) := by
  unfold slugL
  apply chain_stripBy _ _ (fun x y hxy hcon => hxy ⟨hcon.2, hcon.1⟩)
  exact replRunsAux_chain _ '-' (by decide) _ false

theorem slugL_head (l : List Char) : ∀ c, (slugL l).head? = some c → c ≠ '-' := by
  intro c hc
  have h := stripBy_head (· == '-') _ c hc
  simpa using h

theorem slugL_last (l : List Char) : ∀ c, (slugL l).getLast? = some c → c ≠ '-' := by
  intro c hc
  have h := stripBy_getLast (· == '-') _ c hc
  simpa using h

theorem slugL_idem (l : List Char) : slugL (slugL l) = slugL l := by
  set t := slugL l with ht
  have hmem : ∀ c ∈ t, isLowerAlnum c = true ∨ c = '-' := slugL_mem l
  have hnws : ∀ c ∈ t, isWs c = false := by
    intro c hc
    by_cases hw : isWs c = true
    · obtain ⟨h1, h2⟩ := ws_not_slug_char c hw
      rcases hmem c hc with h | h
      · rw [h] at h1
        exact absurd h1 (by decide)
      · exact absurd h h2
    · exact Bool.eq_false_iff.mpr hw
  have hstrip : stripBy isWs t = t :=
    stripBy_id_of_ends isWs t
      (fun c hc => hnws c (List.mem_of_mem_head? (by rw [hc]; rfl)))
      (fun c hc => hnws c (mem_of_getLast_some t c hc))
  have hid1 : normalize_ws_l t = t := by
    unfold normalize_ws_l
    rw [hstrip]
    exact replRunsAux_id isWs ' ' t false hnws
  have hid2 : t.map pyLower = t := by
    calc t.map pyLower
        = t.map id := List.map_congr_left (fun a ha => pyLower_slug_char a (hmem a ha))
      _ = t := List.map_id t
  have hid3 : replRuns (fun c => !(isLowerAlnum c)) '-' t = t :=
    replRunsAux_slugged t false hmem (slugL_chain l) (fun hf => absurd hf (by decide))
  have hid4 : stripBy (· == '-') t = t :=
    stripBy_id_of_ends (· == '-') t
      (fun c hc => by
        have := slugL_head l c hc
        simpa using this)
      (fun c hc => by
        have := slugL_last l c hc
        simpa using this)
  show slugL t = t
  unfold slugL
  rw [hid1, hid2, hid3, hid4]

theorem slug_idem (s : String) : slug (slug s) = slug s := by
  have h : (slug s).data = slugL s.data := rfl
  calc slug (slug s) = ⟨slugL (slug s).data⟩ := rfl
    _ = ⟨slugL (slugL s.data)⟩ := by rw [h]
    _ = ⟨slugL s.data⟩ := by rw [slugL_idem s.data]
    _ = slug s := rfl

/-- C8: `stable_id` is a pure function of `(date, opponent, phase)` built
from `slug`, and `slug` is idempotent: re-slugging an already-slugged
string is a no-op, so `stable_id` applied to already-slugged opponent and
phase strings is a fixed point. -/
theorem stable_id_deterministic_slug_idempotent :
    (∀ s : String, slug (slug s) = slug s)
    ∧ (∀ d o p : String, stable_id d (slug o) (slug p) = stable_id d o p) := by
  refine ⟨slug_idem, ?_⟩
  intro d o p
  unfold stable_id
  rw [slug_idem o, slug_idem p]
